import Mathlib

/-!
Shallow embedding of the coinrich regime-adaptive backtesting engine:
`coinrich/utils/indicators.py`, `coinrich/strategy/adaptive_strategy.py`,
`coinrich/backtest/backtest.py`, `coinrich/backtest/backtest_result.py`.

Conventions.  Prices and money amounts are rationals (`ℚ`); a pandas `NaN`
entry of a derived series is `Option.none`, so a derived column is a
`List (Option ℚ)` aligned with its input.  Python dictionaries produced by
the simulator become structures with the same field names.
-/

namespace Coinrich

/-! ### Indicator library (`coinrich/utils/indicators.py`) -/

/-- The trailing window of length `p` that ends at index `i`:
elements `i+1-p .. i` of `xs` (all of them lie at or before index `i`). -/
def trailing (xs : List ℚ) (p i : Nat) : List ℚ :=
  (xs.take (i + 1)).drop (i + 1 - p)

/-- `moving_average` (indicators.py:6-17):
`data[column].rolling(window=period).mean()`.  `rolling` with its default
`min_periods = window` yields NaN at every index before the first fully
populated window and the arithmetic mean of the trailing `period` values
afterwards.  pandas rejects `window = 0`, so callers always pass `period ≥ 1`. -/
def moving_average (xs : List ℚ) (period : Nat) : List (Option ℚ) :=
  (List.range xs.length).map (fun i =>
    if period ≤ i + 1 then some ((trailing xs period i).sum / period) else none)

/-- The recursion of `ewm(span=period, adjust=False).mean()` after its seed:
`ema[i] = α·x[i] + (1−α)·ema[i−1]` with smoothing factor `α`. -/
def ewmFrom (a prev : ℚ) : List ℚ → List ℚ
  | [] => []
  | x :: rest => (a * x + (1 - a) * prev) :: ewmFrom a (a * x + (1 - a) * prev) rest

/-- `exponential_moving_average` (indicators.py:20-31):
`data[column].ewm(span=period, adjust=False).mean()` with `α = 2/(period+1)`,
seeded by the first observation.  On NaN-free input the result is defined
(non-NaN) at every index, including the whole would-be warm-up prefix. -/
def exponential_moving_average (xs : List ℚ) (period : Nat) : List (Option ℚ) :=
  match xs with
  | [] => []
  | x :: rest => some x :: (ewmFrom (2 / ((period : ℚ) + 1)) x rest).map some

/-! ### Signal generator (`coinrich/strategy/adaptive_strategy.py`)

`entry_signals` and `exit_signals` read an indicator-augmented frame: per-bar
rows carrying the raw close and the derived columns `ma_short`, `ma_long`,
`bb_upper`, `bb_lower`, `rsi`, `plus_di`, `minus_di` (derived columns may be
NaN during warm-up, hence `Option ℚ`), together with the per-bar `trending`
series and the strategy thresholds held on `self`.  pandas comparisons
involving NaN are `False`; `nanLt`/`nanLe` reproduce that. -/

structure StratParams where
  rsi_oversold : ℚ
  rsi_overbought : ℚ
  take_profit : ℚ
  stop_loss : ℚ

structure IndRow where
  close : ℚ
  ma_short : Option ℚ
  ma_long : Option ℚ
  bb_upper : Option ℚ
  bb_lower : Option ℚ
  rsi : Option ℚ
  plus_di : Option ℚ
  minus_di : Option ℚ
deriving DecidableEq

/-- Strict comparison with pandas NaN semantics: any comparison against NaN
is `False`.  `a > b` in the source is rendered `nanLt b a`. -/
def nanLt : Option ℚ → Option ℚ → Bool
  | some a, some b => decide (a < b)
  | _, _ => false

/-- Non-strict comparison with pandas NaN semantics (`NaN ≤ x` is `False`).
`a >= b` in the source is rendered `nanLe b a`. -/
def nanLe : Option ℚ → Option ℚ → Bool
  | some a, some b => decide (a ≤ b)
  | _, _ => false

/-- The body of the `entry_signals` loop (adaptive_strategy.py:112-143) at
index `i`: index 0 keeps the initialised `False`; in a trending bar the buy
signal is a golden cross (`ma_short` crossing above `ma_long` between bars
`i-1` and `i`) or a cross of `plus_di` above `minus_di`; in a ranging bar it is a touch of the
lower Bollinger band (`close <= bb_lower`) or `rsi < rsi_oversold`. -/
def entrySignalAt (prm : StratParams) (data : List IndRow) (trending : List Bool)
    (i : Nat) : Bool :=
  if i = 0 then false
  else
    match data[i]?, data[i - 1]? with
    | some r, some r0 =>
      if trending.getD i false then
        (nanLt r.ma_long r.ma_short && nanLe r0.ma_short r0.ma_long) ||
        (nanLt r.minus_di r.plus_di && nanLe r0.plus_di r0.minus_di)
      else
        nanLe (some r.close) r.bb_lower || nanLt r.rsi (some prm.rsi_oversold)
    | _, _ => false

/-- `AdaptivePositionStrategy.entry_signals` (adaptive_strategy.py:112-143):
the full buy-signal series, one boolean per row of the input frame. -/
def entry_signals (prm : StratParams) (data : List IndRow) (trending : List Bool) :
    List Bool :=
  (List.range data.length).map (entrySignalAt prm data trending)

/-- `AdaptivePositionStrategy.detect_market_state_change`
(adaptive_strategy.py:61-78): `changes[i]` is `True` exactly when
`i ≥ lookback` and `trending[i] ≠ trending[i-lookback]`. -/
def detect_market_state_change (trending : List Bool) (lookback : Nat) : List Bool :=
  (List.range trending.length).map (fun i =>
    decide (lookback ≤ i) && (trending.getD i false != trending.getD (i - lookback) false))

/-- The body of the `exit_signals` loop (adaptive_strategy.py:145-200) at
index `i`: index 0 keeps the initialised `False`; a detected market-state
change forces a sell (and `continue` skips the rest); otherwise a trending bar
sells on a dead cross or a cross of `plus_di` below `minus_di`, a ranging bar on an upper
Bollinger touch (`close >= bb_upper`) or `rsi > rsi_overbought`; independently,
`if position_open_price:` (Python truthiness: skipped for `None` and for price
`0`) sells when the unrealized return reaches `take_profit` or `-stop_loss`. -/
def exitSignalAt (prm : StratParams) (data : List IndRow) (trending : List Bool)
    (position_open_price : Option ℚ) (i : Nat) : Bool :=
  if i = 0 then false
  else if (detect_market_state_change trending 1).getD i false then true
  else
    let base :=
      match data[i]?, data[i - 1]? with
      | some r, some r0 =>
        if trending.getD i false then
          (nanLt r.ma_short r.ma_long && nanLe r0.ma_long r0.ma_short) ||
          (nanLt r.plus_di r.minus_di && nanLe r0.minus_di r0.plus_di)
        else
          nanLe r.bb_upper (some r.close) || nanLt (some prm.rsi_overbought) r.rsi
      | _, _ => false
    let profit_exit :=
      match position_open_price, data[i]? with
      | some p, some r =>
        if p = 0 then false
        else decide (prm.take_profit ≤ (r.close - p) / p) ||
             decide ((r.close - p) / p ≤ -prm.stop_loss)
      | _, _ => false
    base || profit_exit

/-- `AdaptivePositionStrategy.exit_signals` (adaptive_strategy.py:145-200):
the full sell-signal series, one boolean per row of the input frame. -/
def exit_signals (prm : StratParams) (data : List IndRow) (trending : List Bool)
    (position_open_price : Option ℚ) : List Bool :=
  (List.range data.length).map (exitSignalAt prm data trending position_open_price)

/-! ### Position simulator (`coinrich/backtest/backtest.py` lines 56-152)

The loop `for i in range(1, len(df))` transitions per-bar state.  The strategy
is consulted through `entry_signals(df.iloc[:i+1]).iloc[-1]` and
`exit_signals(df.iloc[:i+1], entry_price).iloc[-1]`; those calls are abstracted
here as the oracle fields `entrySig : Nat → Bool` and
`exitSig : Nat → ℚ → Bool` of `SimParams`, so every theorem about the loop
holds for every strategy answer.  `marketState i` is the per-bar
`market_state` column (`True` = trending).  Dates in the trade dictionaries
are the frame index; bars are identified here by their integer position. -/

structure SimRow where
  position : Nat
  capital : ℚ
  coin_value : ℚ
  equity : ℚ
deriving DecidableEq

structure OpenPos where
  entry_index : Nat
  entry_price : ℚ
  quantity : ℚ
  investment : ℚ
  fee_paid : ℚ
  market_state : Bool
deriving DecidableEq

structure Trade where
  entry_index : Nat
  entry_price : ℚ
  quantity : ℚ
  investment : ℚ
  fee_paid : ℚ
  market_state : Bool
  exit_index : Nat
  exit_price : ℚ
  exit_value : ℚ
  exit_fee : ℚ
  total_fee : ℚ
  pnl : ℚ
  pnl_pct : ℚ
  exit_market_state : Bool
deriving DecidableEq

structure SimParams where
  closes : List ℚ
  marketState : Nat → Bool
  entrySig : Nat → Bool
  exitSig : Nat → ℚ → Bool
  initial_capital : ℚ
  position_size : ℚ
  commission : ℚ

structure SimState where
  prev : SimRow
  rows : List SimRow
  curPos : Option OpenPos
  trades : List Trade
deriving DecidableEq

/-- Append the finished row for the current bar (its `equity` entry is written
by line 152 as `capital + coin_value`) and install the new open-position and
ledger state. -/
def pushRow (s : SimState) (row : SimRow) (pos : Option OpenPos) (tr : List Trade) :
    SimState :=
  { prev := row, rows := s.rows ++ [row], curPos := pos, trades := tr }

/-- One iteration of the backtest loop (backtest.py:67-152) at bar `i`.
Lines 69-71 carry the previous bar's `position`, `capital`, `coin_value`;
a FLAT previous bar consults the buy oracle and lines 81-106 open a position;
a LONG previous bar (with a live `current_position`) marks to market
(line 111), consults the sell oracle, and lines 120-149 close the position
and append the trade dictionary; line 152 writes `equity = capital +
coin_value` in every case. -/
def step (P : SimParams) (i : Nat) (s : SimState) : SimState :=
  let current_price := P.closes.getD i 0
  if s.prev.position = 0 then
    if P.entrySig i then
      let investment := s.prev.capital * P.position_size
      let fee := investment * P.commission
      let actual_investment := investment - fee
      let quantity := actual_investment / current_price
      let capital := s.prev.capital - investment
      let coin_value := quantity * current_price
      pushRow s ⟨1, capital, coin_value, capital + coin_value⟩
        (some ⟨i, current_price, quantity, investment, fee, P.marketState i⟩) s.trades
    else
      pushRow s ⟨s.prev.position, s.prev.capital, s.prev.coin_value,
        s.prev.capital + s.prev.coin_value⟩ s.curPos s.trades
  else if s.prev.position = 1 then
    match s.curPos with
    | some cp =>
      let coin_value := cp.quantity * current_price
      if P.exitSig i cp.entry_price then
        let sell_value := coin_value
        let fee := sell_value * P.commission
        let actual_sell_value := sell_value - fee
        let capital := s.prev.capital + actual_sell_value
        let pnl := actual_sell_value - cp.investment
        pushRow s ⟨0, capital, 0, capital + 0⟩ none
          (s.trades ++ [⟨cp.entry_index, cp.entry_price, cp.quantity, cp.investment,
            cp.fee_paid, cp.market_state, i, current_price, sell_value, fee,
            fee + cp.fee_paid, pnl, pnl / cp.investment, P.marketState i⟩])
      else
        pushRow s ⟨1, s.prev.capital, coin_value, s.prev.capital + coin_value⟩
          (some cp) s.trades
    | none =>
      pushRow s ⟨s.prev.position, s.prev.capital, s.prev.coin_value,
        s.prev.capital + s.prev.coin_value⟩ none s.trades
  else
    pushRow s ⟨s.prev.position, s.prev.capital, s.prev.coin_value,
      s.prev.capital + s.prev.coin_value⟩ s.curPos s.trades

/-- Bar 0 as initialised by lines 57-60: FLAT, all cash, `equity =
initial_capital`.  (The columns are initialised over the whole frame, but
every bar `i ≥ 1` is overwritten from bar `i-1` before being read, so the
sequential rendering is equivalent.) -/
def initRow (initial_capital : ℚ) : SimRow :=
  ⟨0, initial_capital, 0, initial_capital⟩

def initState (P : SimParams) : SimState :=
  { prev := initRow P.initial_capital, rows := [initRow P.initial_capital],
    curPos := none, trades := [] }

/-- The whole loop of `Backtest.run` over bars `1 .. len-1` (backtest.py:67),
including the initialised bar 0.  An empty frame has no rows and the loop body
never executes. -/
def simulate (P : SimParams) : SimState :=
  match P.closes with
  | [] => { prev := initRow P.initial_capital, rows := [], curPos := none, trades := [] }
  | _ :: rest => (List.range' 1 rest.length).foldl (fun s i => step P i s) (initState P)

/-! ### Performance analytics (`coinrich/backtest/backtest_result.py`) -/

def winning_trades (trades : List Trade) : List Trade :=
  trades.filter (fun t => decide (0 < t.pnl))

def losing_trades (trades : List Trade) : List Trade :=
  trades.filter (fun t => decide (t.pnl ≤ 0))

/-- `avg_win` (backtest_result.py:52-55): mean `pnl_pct` over trades with
`pnl > 0`, or `0` when there is no winning trade. -/
def avg_win (trades : List Trade) : ℚ :=
  if winning_trades trades = [] then 0
  else ((winning_trades trades).map Trade.pnl_pct).sum / (winning_trades trades).length

/-- `avg_loss` (backtest_result.py:58-62): mean `pnl_pct` over trades with
`pnl <= 0`, or `0` when there is no losing trade. -/
def avg_loss (trades : List Trade) : ℚ :=
  if losing_trades trades = [] then 0
  else ((losing_trades trades).map Trade.pnl_pct).sum / (losing_trades trades).length

/-- The value of `self.profit_factor`: a finite float or `float(inf)`. -/
inductive ProfitFactor where
  | val (q : ℚ)
  | inf
deriving DecidableEq

/-- `profit_factor` (backtest_result.py:43-71): with at least one trade it is
`abs(avg_win / avg_loss)` when `avg_loss != 0` and `float(inf)` otherwise;
with no trades it is `0`. -/
def profit_factor (trades : List Trade) : ProfitFactor :=
  if trades = [] then ProfitFactor.val 0
  else if avg_loss trades ≠ 0 then ProfitFactor.val |avg_win trades / avg_loss trades|
  else ProfitFactor.inf

/-! ### `Backtest.__init__` and `Backtest.run` (`coinrich/backtest/backtest.py`)

A pandas DataFrame is rendered as its timestamp index plus one optional list
per OHLCV column (`none` = the column is absent); accessing an absent column
raises `KeyError`.  Fallible pipeline stages return `Except String`. -/

structure Df where
  index : List ℤ
  openCol : Option (List ℚ)
  highCol : Option (List ℚ)
  lowCol : Option (List ℚ)
  closeCol : Option (List ℚ)
  volumeCol : Option (List ℚ)
deriving DecidableEq

def df_get_col (col : Option (List ℚ)) (err : String) : Except String (List ℚ) :=
  match col with
  | some xs => Except.ok xs
  | none => Except.error err

/-- A strictly increasing (chronological) timestamp index. -/
def chronological (index : List ℤ) : Prop :=
  index.Chain' (fun a b => a < b)

structure IndFrame where
  close : List ℚ
  high : List ℚ
  low : List ℚ
  ma_short : List (Option ℚ)
  ma_long : List (Option ℚ)
deriving DecidableEq

/-- `AdaptivePositionStrategy.calculate_indicators` (adaptive_strategy.py:80-110).
The first column it touches is `close` (line 92, `moving_average`); `adx`
(line 105) is the first reader of `high` and then `low` (indicators.py:287-288),
so a missing column surfaces as a `KeyError` in exactly that order.  Once the
three columns resolve, every remaining operation (rolling mean/std/sum, ewm,
diff) is total on NaN-free numeric columns and raises nothing — the index is
never inspected, so a non-chronological or empty frame passes through.  The
returned frame records the fetched price columns and the two moving-average
columns; the Bollinger/RSI/ADX columns (total functions of the same three
columns) are never read by anything reachable, because `run` aborts in
`analyze_market` right after this call. -/
def calculate_indicators (ma_short_period ma_long_period : Nat) (df : Df) :
    Except String IndFrame := do
  let close ← df_get_col df.closeCol ("KeyError: close")
  let high ← df_get_col df.highCol ("KeyError: high")
  let low ← df_get_col df.lowCol ("KeyError: low")
  Except.ok ⟨close, high, low, moving_average close ma_short_period,
    moving_average close ma_long_period⟩

/-- `AdaptivePositionStrategy.analyze_market` (adaptive_strategy.py:45-59)
evaluates `is_trending_market(data, adx_threshold=..., bb_width_percentile=...)`.
`is_trending_market` (indicators.py:327-356) has parameters `adx_threshold`,
`chop_threshold`, `adx_period`, `chop_period` and no `bb_width_percentile`, so
Python raises `TypeError` at the call site, before the callee body runs,
whatever the data. -/
def analyze_market : Except String Unit :=
  Except.error
    ("TypeError: is_trending_market() got an unexpected keyword argument bb_width_percentile")

/-- The `Backtest` object: `__init__` (backtest.py:19-37) stores the frame and
the configuration unchanged.  It performs no validation of any kind — no
column check, no index-monotonicity check, no emptiness check. -/
structure Backtest where
  data : Df
  ma_short_period : Nat
  ma_long_period : Nat
  initial_capital : ℚ
  position_size : ℚ
  commission : ℚ

def Backtest.init (data : Df) (msp mlp : Nat) (ic ps c : ℚ) : Backtest :=
  ⟨data, msp, mlp, ic, ps, c⟩

/-- `Backtest.run` (backtest.py:39-157).  Line 46 computes the indicator frame
(the only stage where a malformed frame can raise: a missing column is a
`KeyError`); line 49 then calls `self.strategy.analyze_market(df)`, which
raises `TypeError` for every input (see `analyze_market`); were that call ever
to return its 3-tuple, the same line 49 would still raise `ValueError`
unpacking it into four names, and line 79 would call `entry_signals` without
its required `trending` argument.  The simulation loop (lines 56-152, embedded
as `simulate`) is therefore unreachable on every input. -/
def Backtest.run (bt : Backtest) : Except String (List SimRow × List Trade) := do
  let _df ← calculate_indicators bt.ma_short_period bt.ma_long_period bt.data
  let _u ← analyze_market
  Except.error ("ValueError: not enough values to unpack (expected 4, got 3)")

/-! ### Concrete inputs used by witnesses and counterexamples -/

/-- A well-formed 3-bar frame: strictly increasing timestamps, all OHLCV
columns present. -/
def dfWellFormed : Df :=
  ⟨[0, 1, 2], some [1, 1, 1], some [2, 2, 2], some [1, 1, 1], some [1, 2, 3],
    some [1, 1, 1]⟩

/-- The same bars with a decreasing (non-chronological) timestamp index. -/
def dfNonChrono : Df :=
  ⟨[2, 1, 0], some [1, 1, 1], some [2, 2, 2], some [1, 1, 1], some [1, 2, 3],
    some [1, 1, 1]⟩

/-- A frame whose `close` column is missing. -/
def dfMissingClose : Df :=
  ⟨[0, 1, 2], some [1, 1, 1], some [2, 2, 2], some [1, 1, 1], none, some [1, 1, 1]⟩

/-- A completed trade with `pnl = 0` (hence counted by the code as a losing
trade) and `pnl_pct = 0`. -/
def zeroTrade : Trade :=
  ⟨1, 1, 0, 0, 0, false, 2, 1, 0, 0, 0, 0, 0, false⟩

/-- Simulator parameters driving one complete buy (bar 1) / sell (bar 2)
round trip over closes `[1, 2, 4]` with no commission. -/
def simP : SimParams :=
  { closes := [1, 2, 4], marketState := fun _ => false,
    entrySig := fun i => i == 1, exitSig := fun i _ => i == 2,
    initial_capital := 1000, position_size := 1, commission := 0 }

/-- A mid-run state holding an open position (LONG). -/
def longState : SimState :=
  { prev := ⟨1, 0, 1000, 1000⟩, rows := [initRow 1000, ⟨1, 0, 1000, 1000⟩],
    curPos := some ⟨1, 2, 500, 1000, 0, false⟩, trades := [] }

/-- The default strategy thresholds (adaptive_strategy.py:38-43):
`rsi_oversold = 30`, `rsi_overbought = 70`, `take_profit = 0.05`,
`stop_loss = 0.02`. -/
def prm0 : StratParams :=
  ⟨30, 70, 5 / 100, 2 / 100⟩

/-- An indicator row whose derived columns are still in warm-up (all NaN). -/
def indRow0 : IndRow :=
  ⟨1, none, none, none, none, none, none, none⟩

/-! ### Theorems -/

theorem ewmFrom_length (a prev : ℚ) (l : List ℚ) : (ewmFrom a prev l).length = l.length := by
  induction l generalizing prev with
  | nil => rfl
  | cons x rest ih => simp [ewmFrom, ih]

theorem moving_average_length (xs : List ℚ) (p : Nat) :
    (moving_average xs p).length = xs.length := by
  simp [moving_average]

theorem exponential_moving_average_length (xs : List ℚ) (p : Nat) :
    (exponential_moving_average xs p).length = xs.length := by
  cases xs with
  | nil => rfl
  | cons x rest => simp [exponential_moving_average, ewmFrom_length]

theorem moving_average_getElem (xs : List ℚ) (p i : Nat) (h : i < xs.length) :
    (moving_average xs p)[i]? =
      some (if p ≤ i + 1 then some ((trailing xs p i).sum / p) else none) := by
  simp [moving_average, List.getElem?_range, h]

/-- C3 counterexample: `exponential_moving_average` on input `[1, 2, 3]` with
lookback period `3` is already defined at index `0` (its value is the seed
`1`), whereas the claim requires NaN (`none`) at every index below
`3 - 1 = 2`.  The warm-up prefix of the EMA has length `0`, not `period - 1`. -/
theorem ema_warmup_cex :
    (exponential_moving_average [1, 2, 3] 3)[0]? = some (some 1)
    ∧ (exponential_moving_average [1, 2, 3] 3)[0]? ≠ some none := by
  exact ⟨rfl, by decide⟩

/-- C3, amended: for every lookback `period ≥ 1`, `moving_average` has a NaN
warm-up prefix of length exactly `period - 1` (undefined below index
`period - 1`, defined at every in-range index from `period - 1` on), while
`exponential_moving_average` is defined at every in-range index — its warm-up
prefix is empty. -/
theorem warmup_prefix_amended (xs : List ℚ) (p : Nat) (_hp : 1 ≤ p) :
    (∀ i, i < xs.length → i + 1 < p → (moving_average xs p)[i]? = some none)
    ∧ (∀ i, i < xs.length → p ≤ i + 1 → ∃ q, (moving_average xs p)[i]? = some (some q))
    ∧ (∀ i, i < xs.length → ∃ q, (exponential_moving_average xs p)[i]? = some (some q)) := by
  refine ⟨?_, ?_, ?_⟩
  · intro i hi hip
    rw [moving_average_getElem xs p i hi, if_neg (by omega)]
  · intro i hi hpi
    exact ⟨_, by rw [moving_average_getElem xs p i hi, if_pos hpi]⟩
  · intro i hi
    cases xs with
    | nil => simp at hi
    | cons x rest =>
      cases i with
      | zero => exact ⟨x, by simp [exponential_moving_average]⟩
      | succ j =>
        have hj : j < (ewmFrom (2 / ((p : ℚ) + 1)) x rest).length := by
          rw [ewmFrom_length]; simpa using hi
        refine ⟨(ewmFrom (2 / ((p : ℚ) + 1)) x rest).get ⟨j, hj⟩, ?_⟩
        simp [exponential_moving_average, List.getElem?_eq_getElem hj]

theorem warmup_prefix_witness :
    (moving_average [(1 : ℚ), 2, 3] 2)[0]? = some none
    ∧ (∃ q, (moving_average [(1 : ℚ), 2, 3] 2)[1]? = some (some q))
    ∧ (∃ q, (exponential_moving_average [(1 : ℚ), 2, 3] 2)[0]? = some (some q)) :=
  ⟨(warmup_prefix_amended [1, 2, 3] 2 (by decide)).1 0 (by decide) (by decide),
   (warmup_prefix_amended [1, 2, 3] 2 (by decide)).2.1 1 (by decide) (by decide),
   (warmup_prefix_amended [1, 2, 3] 2 (by decide)).2.2 0 (by decide)⟩

/-! #### Simulator loop invariants: helper lemmas -/

theorem step_rows (P : SimParams) (i : Nat) (s : SimState) :
    (step P i s).rows = s.rows ++ [(step P i s).prev] := by
  unfold step pushRow
  split
  · split <;> rfl
  · split
    · split
      · split <;> rfl
      · rfl
    · rfl

theorem step_prev_equity (P : SimParams) (i : Nat) (s : SimState) :
    (step P i s).prev.equity = (step P i s).prev.capital + (step P i s).prev.coin_value := by
  unfold step pushRow
  split
  · split <;> rfl
  · split
    · split
      · split <;> rfl
      · rfl
    · rfl

theorem step_prev_position (P : SimParams) (i : Nat) (s : SimState)
    (h : s.prev.position = 0 ∨ s.prev.position = 1) :
    (step P i s).prev.position = 0 ∨ (step P i s).prev.position = 1 := by
  unfold step pushRow
  split
  · split
    · exact Or.inr rfl
    · exact h
  · split
    · split
      · split
        · exact Or.inl rfl
        · exact Or.inr rfl
      · exact h
    · exact h

theorem foldl_step_inv (P : SimParams) (Inv : SimState → Prop)
    (hstep : ∀ i s, Inv s → Inv (step P i s)) :
    ∀ (l : List Nat) (s : SimState), Inv s → Inv (l.foldl (fun t i => step P i t) s) := by
  intro l
  induction l with
  | nil => intro s h; exact h
  | cons a t ih => intro s h; exact ih _ (hstep a s h)

theorem foldl_step_inv_idx (P : SimParams) (Inv : SimState → Nat → Prop)
    (hstep : ∀ i s, Inv s i → Inv (step P i s) (i + 1)) :
    ∀ (m a : Nat) (s : SimState), Inv s a →
      Inv ((List.range' a m).foldl (fun t i => step P i t) s) (a + m) := by
  intro m
  induction m with
  | zero => intro a s h; simpa using h
  | succ k ih =>
    intro a s h
    rw [show a + (k + 1) = (a + 1) + k by omega, List.range'_succ, List.foldl_cons]
    exact ih (a + 1) (step P a s) (hstep a s h)

theorem simulate_head (P : SimParams) (h : P.closes ≠ []) :
    (simulate P).rows.head? = some (initRow P.initial_capital) := by
  cases hc : P.closes with
  | nil => exact absurd hc h
  | cons c rest =>
    have key : ∀ (l : List Nat) (s : SimState),
        s.rows.head? = some (initRow P.initial_capital) →
        (l.foldl (fun t i => step P i t) s).rows.head? = some (initRow P.initial_capital) := by
      refine foldl_step_inv P
        (fun s => s.rows.head? = some (initRow P.initial_capital)) ?_
      intro i s hs
      rw [step_rows]
      cases hr : s.rows with
      | nil => rw [hr] at hs; exact absurd hs (by simp)
      | cons a t => rw [hr] at hs; simpa using hs
    simp only [simulate, hc]
    exact key _ _ (by simp [initState])

theorem simulate_cases (P : SimParams) :
    simulate P
        = { prev := initRow P.initial_capital, rows := [], curPos := none, trades := [] }
    ∨ ∃ m : Nat, simulate P
        = (List.range' 1 m).foldl (fun s i => step P i s) (initState P) := by
  cases hc : P.closes with
  | nil => exact Or.inl (by simp only [simulate, hc])
  | cons c rest => exact Or.inr ⟨rest.length, by simp only [simulate, hc]⟩

theorem simulate_simP_rows :
    (simulate simP).rows =
      [⟨0, 1000, 0, 1000⟩, ⟨1, 0, 1000, 1000⟩, ⟨0, 2000, 0, 2000⟩] := by
  norm_num [simulate, simP, initState, initRow, step, pushRow, List.range']

theorem simulate_simP_trades :
    (simulate simP).trades =
      [⟨1, 2, 500, 1000, 0, false, 2, 4, 2000, 0, 0, 1000, 1, false⟩] := by
  norm_num [simulate, simP, initState, initRow, step, pushRow, List.range']

/-! #### Claim theorems about the simulator -/

/-- C5: in every completed simulation, every per-bar row satisfies
`equity = capital + coin_value` exactly (line 152 writes the sum, bar 0 is
initialised with `coin_value = 0`), and on a non-empty frame bar 0 is the row
`{position := 0, capital := initial_capital, coin_value := 0,
equity := initial_capital}`, so `equity[0] = initial_capital`. -/
theorem equity_decomposition (P : SimParams) :
    (∀ r ∈ (simulate P).rows, r.equity = r.capital + r.coin_value)
    ∧ (P.closes ≠ [] →
        (simulate P).rows.head? = some ⟨0, P.initial_capital, 0, P.initial_capital⟩) := by
  constructor
  · cases hc : P.closes with
    | nil => intro r hr; simp [simulate, hc] at hr
    | cons c rest =>
      simp only [simulate, hc]
      refine foldl_step_inv P
        (fun s => ∀ r ∈ s.rows, r.equity = r.capital + r.coin_value) ?_ _ _ ?_
      · intro i s hs r hr
        rw [step_rows] at hr
        rcases List.mem_append.mp hr with h | h
        · exact hs r h
        · rw [List.mem_singleton.mp h]; exact step_prev_equity P i s
      · intro r hr
        have h0 : r = initRow P.initial_capital := by simpa [initState] using hr
        rw [h0]
        simp [initRow]
  · intro h
    simpa [initRow] using simulate_head P h

theorem equity_decomposition_witness :
    (1000 : ℚ) = 0 + 1000
    ∧ (simulate simP).rows.head? = some ⟨0, simP.initial_capital, 0, simP.initial_capital⟩ :=
  ⟨(equity_decomposition simP).1 ⟨1, 0, 1000, 1000⟩
     (by rw [simulate_simP_rows]; simp),
   (equity_decomposition simP).2 (by simp [simP])⟩

/-- C6: the position state is binary (`0` = FLAT, `1` = LONG) at every bar and
starts FLAT; while LONG the step's outcome does not depend on the buy oracle
at all (a buy signal while LONG is a no-op), and while FLAT it does not depend
on the sell oracle (a sell signal while FLAT is a no-op).  The state carries
`curPos : Option OpenPos`, so at most one position is open at any time. -/
theorem position_state_machine :
    (∀ P : SimParams, ∀ r ∈ (simulate P).rows, r.position = 0 ∨ r.position = 1)
    ∧ (∀ (P : SimParams) (r : SimRow),
        (simulate P).rows.head? = some r → r.position = 0)
    ∧ (∀ (P : SimParams) (e1 e2 : Nat → Bool) (i : Nat) (s : SimState),
        s.prev.position = 1 →
        step { P with entrySig := e1 } i s = step { P with entrySig := e2 } i s)
    ∧ (∀ (P : SimParams) (x1 x2 : Nat → ℚ → Bool) (i : Nat) (s : SimState),
        s.prev.position = 0 →
        step { P with exitSig := x1 } i s = step { P with exitSig := x2 } i s) := by
  refine ⟨?_, ?_, ?_, ?_⟩
  · intro P
    cases hc : P.closes with
    | nil => intro r hr; simp [simulate, hc] at hr
    | cons c rest =>
      simp only [simulate, hc]
      have key := foldl_step_inv P
        (fun s => (s.prev.position = 0 ∨ s.prev.position = 1)
          ∧ ∀ r ∈ s.rows, r.position = 0 ∨ r.position = 1) ?_ (List.range' 1 rest.length)
        (initState P) ?_
      · intro r hr; exact key.2 r hr
      · intro i s hs
        refine ⟨step_prev_position P i s hs.1, ?_⟩
        intro r hr
        rw [step_rows] at hr
        rcases List.mem_append.mp hr with h | h
        · exact hs.2 r h
        · rw [List.mem_singleton.mp h]; exact step_prev_position P i s hs.1
      · constructor
        · exact Or.inl rfl
        · intro r hr
          have h0 : r = initRow P.initial_capital := by simpa [initState] using hr
          rw [h0]
          exact Or.inl rfl
  · intro P r hr
    cases hc : P.closes with
    | nil => rw [simulate, hc] at hr; simp at hr
    | cons c rest =>
      have h0 := simulate_head P (by simp [hc])
      rw [h0] at hr
      rw [(Option.some_inj.mp hr).symm]
      rfl
  · intro P e1 e2 i s h
    simp [step, h]
  · intro P x1 x2 i s h
    simp [step, h]

theorem position_state_machine_witness :
    ((1 : Nat) = 0 ∨ (1 : Nat) = 1)
    ∧ step { simP with entrySig := fun _ => true } 2 longState
        = step { simP with entrySig := fun _ => false } 2 longState
    ∧ step { simP with exitSig := fun _ _ => true } 1 (initState simP)
        = step { simP with exitSig := fun _ _ => false } 1 (initState simP) :=
  ⟨position_state_machine.1 simP ⟨1, 0, 1000, 1000⟩
     (by rw [simulate_simP_rows]; simp),
   position_state_machine.2.2.1 simP (fun _ => true) (fun _ => false) 2 longState (by decide),
   position_state_machine.2.2.2 simP (fun _ _ => true) (fun _ _ => false) 1
     (initState simP) (by decide)⟩

/-- C7: every trade in the final ledger satisfies
`pnl = exit_value·(1 − commission) − investment`, `pnl_pct = pnl/investment`,
and `exit_value = quantity · close[exit_index]` (lines 120-148: `sell_value`
is the marked-to-market `coin_value`, the exit fee is
`sell_value · commission`, and the realised pnl is the after-fee proceeds
minus the recorded investment). -/
theorem trade_pnl_formula (P : SimParams) :
    ∀ t ∈ (simulate P).trades,
      t.pnl = t.exit_value * (1 - P.commission) - t.investment
      ∧ t.pnl_pct = t.pnl / t.investment
      ∧ t.exit_value = t.quantity * P.closes.getD t.exit_index 0 := by
  rcases simulate_cases P with h | ⟨m, h⟩
  · rw [h]; intro t ht; simp at ht
  · rw [h]
    refine foldl_step_inv P
      (fun s => ∀ t ∈ s.trades,
        t.pnl = t.exit_value * (1 - P.commission) - t.investment
        ∧ t.pnl_pct = t.pnl / t.investment
        ∧ t.exit_value = t.quantity * P.closes.getD t.exit_index 0) ?_ _ _ ?_
    · intro i s hs t ht
      revert ht
      unfold step pushRow
      split
      · split <;> exact fun ht => hs t ht
      · split
        · split
          · split
            · intro ht
              rcases List.mem_append.mp ht with h | h
              · exact hs t h
              · rw [List.mem_singleton.mp h]
                refine ⟨by ring, rfl, rfl⟩
            · exact fun ht => hs t ht
          · exact fun ht => hs t ht
        · exact fun ht => hs t ht
    · intro t ht
      simp [initState] at ht

theorem trade_pnl_formula_witness :
    (1000 : ℚ) = 2000 * (1 - simP.commission) - 1000
    ∧ (1 : ℚ) = 1000 / 1000
    ∧ (2000 : ℚ) = 500 * simP.closes.getD 2 0 :=
  trade_pnl_formula simP ⟨1, 2, 500, 1000, 0, false, 2, 4, 2000, 0, 0, 1000, 1, false⟩
    (by rw [simulate_simP_trades]; simp)

/-- C8: a FLAT-to-LONG transition at bar `i` (previous bar FLAT, buy oracle
true) performs exactly the arithmetic of lines 81-106: `investment =
capital · position_size`, `fee = investment · commission`, `quantity =
(investment − fee)/close[i]`, the full investment is deducted from capital,
`coin_value` becomes `quantity · close[i]`, the position flag becomes 1, and
the opened position records these values. -/
theorem flat_to_long_transition (P : SimParams) (i : Nat) (s : SimState)
    (hflat : s.prev.position = 0) (hbuy : P.entrySig i = true) :
    (step P i s).prev.position = 1
    ∧ (step P i s).prev.capital = s.prev.capital - s.prev.capital * P.position_size
    ∧ (step P i s).prev.coin_value =
        ((s.prev.capital * P.position_size
            - s.prev.capital * P.position_size * P.commission) / P.closes.getD i 0)
          * P.closes.getD i 0
    ∧ (step P i s).curPos = some
        ⟨i, P.closes.getD i 0,
         (s.prev.capital * P.position_size
            - s.prev.capital * P.position_size * P.commission) / P.closes.getD i 0,
         s.prev.capital * P.position_size,
         s.prev.capital * P.position_size * P.commission,
         P.marketState i⟩ := by
  refine ⟨?_, ?_, ?_, ?_⟩ <;> simp [step, pushRow, hflat, hbuy]

theorem flat_to_long_transition_witness :
    (step simP 1 (initState simP)).prev.position = 1
    ∧ (step simP 1 (initState simP)).curPos = some ⟨1, 2, 500, 1000, 0, false⟩ := by
  have h := flat_to_long_transition simP 1 (initState simP) (by decide) (by decide)
  refine ⟨h.1, ?_⟩
  rw [h.2.2.2]
  norm_num [simP, initState, initRow]

/-- C10: on a non-empty frame bar 0 is always FLAT (the loop starts at index
1, so no position can be opened at bar 0), every completed trade entered at a
bar index at least 1 and exited at a strictly later bar (the transition at
bar `i` is decided from bar `i-1`'s position, so a position opened at `i`
can close no earlier than `i+1`), and any position still open at the end was
also opened at a bar index at least 1. -/
theorem no_same_bar_exit (P : SimParams) :
    (∀ r : SimRow, (simulate P).rows.head? = some r → r.position = 0)
    ∧ (∀ t ∈ (simulate P).trades, 1 ≤ t.entry_index ∧ t.entry_index + 1 ≤ t.exit_index)
    ∧ (∀ cp : OpenPos, (simulate P).curPos = some cp → 1 ≤ cp.entry_index) := by
  have main : (∀ t ∈ (simulate P).trades,
        1 ≤ t.entry_index ∧ t.entry_index + 1 ≤ t.exit_index)
      ∧ (∀ cp : OpenPos, (simulate P).curPos = some cp → 1 ≤ cp.entry_index) := by
    cases hc : P.closes with
    | nil =>
      constructor
      · intro t ht; simp [simulate, hc] at ht
      · intro cp hcp; simp [simulate, hc] at hcp
    | cons c rest =>
      simp only [simulate, hc]
      have key := foldl_step_inv_idx P
        (fun s a => 1 ≤ a
          ∧ (∀ cp : OpenPos, s.curPos = some cp → 1 ≤ cp.entry_index ∧ cp.entry_index < a)
          ∧ (∀ t ∈ s.trades, 1 ≤ t.entry_index ∧ t.entry_index + 1 ≤ t.exit_index))
        ?_ rest.length 1 (initState P) ?_
      · refine ⟨fun t ht => key.2.2 t ht, fun cp hcp => (key.2.1 cp hcp).1⟩
      · intro i s hs
        obtain ⟨hi, hcur, htr⟩ := hs
        refine ⟨by omega, ?_, ?_⟩
        · intro cp hcp
          revert hcp
          unfold step pushRow
          split
          · split
            · intro hcp
              rw [(Option.some_inj.mp hcp).symm]
              exact ⟨hi, Nat.lt_succ_self i⟩
            · intro hcp
              obtain ⟨h1, h2⟩ := hcur cp hcp
              exact ⟨h1, by omega⟩
          · split
            · split
              · split
                · intro hcp; exact absurd hcp (by simp)
                · intro hcp
                  obtain ⟨h1, h2⟩ := hcur cp (by rw [(Option.some_inj.mp hcp).symm]; assumption)
                  exact ⟨h1, by omega⟩
              · intro hcp; exact absurd hcp (by simp)
            · intro hcp
              obtain ⟨h1, h2⟩ := hcur cp hcp
              exact ⟨h1, by omega⟩
        · intro t ht
          revert ht
          unfold step pushRow
          split
          · split <;> exact fun ht => htr t ht
          · split
            · split
              · split
                · intro ht
                  rcases List.mem_append.mp ht with h | h
                  · exact htr t h
                  · rw [List.mem_singleton.mp h]
                    rename_i cp _ _
                    obtain ⟨h1, h2⟩ := hcur cp (by assumption)
                    exact ⟨h1, h2⟩
                · exact fun ht => htr t ht
              · exact fun ht => htr t ht
            · exact fun ht => htr t ht
      · refine ⟨le_refl 1, ?_, ?_⟩
        · intro cp hcp; simp [initState] at hcp
        · intro t ht; simp [initState] at ht
  refine ⟨?_, main.1, main.2⟩
  intro r hr
  cases hc : P.closes with
  | nil => rw [simulate, hc] at hr; simp at hr
  | cons c rest =>
    have h0 := simulate_head P (by simp [hc])
    rw [h0] at hr
    rw [(Option.some_inj.mp hr).symm]
    rfl

theorem no_same_bar_exit_witness :
    1 ≤ (1 : Nat) ∧ (1 : Nat) + 1 ≤ 2 :=
  (no_same_bar_exit simP).2.1
    ⟨1, 2, 500, 1000, 0, false, 2, 4, 2000, 0, 0, 1000, 1, false⟩
    (by rw [simulate_simP_trades]; simp)

/-! #### No-lookahead of the signal generator -/

theorem getD_take {α : Type} (l : List α) (d : α) (i j : Nat) (hij : j < i + 1) :
    (l.take (i + 1)).getD j d = l.getD j d := by
  rw [List.getD_eq_getElem?_getD, List.getD_eq_getElem?_getD]
  by_cases h : j < l.length
  · rw [List.getElem?_take_of_lt hij]
  · have h1 : l.length ≤ j := by omega
    have h2 : (l.take (i + 1)).length ≤ j := by
      simp only [List.length_take]
      omega
    rw [List.getElem?_eq_none h1, List.getElem?_eq_none h2]

theorem detect_getD_take (trending : List Bool) (i : Nat) :
    (detect_market_state_change (trending.take (i + 1)) 1).getD i false
      = (detect_market_state_change trending 1).getD i false := by
  by_cases h : i < trending.length
  · have h1 : i < (trending.take (i + 1)).length := by
      simp only [List.length_take]
      omega
    unfold detect_market_state_change
    rw [List.getD_eq_getElem?_getD, List.getD_eq_getElem?_getD,
      List.getElem?_map, List.getElem?_map,
      List.getElem?_range h1, List.getElem?_range h]
    simp only [Option.map_some', Option.getD_some]
    rw [getD_take trending false i i (by omega),
      getD_take trending false i (i - 1) (by omega)]
  · rw [List.take_of_length_le (by omega)]

theorem entrySignalAt_take (prm : StratParams) (data : List IndRow)
    (trending : List Bool) (i : Nat) :
    entrySignalAt prm (data.take (i + 1)) (trending.take (i + 1)) i
      = entrySignalAt prm data trending i := by
  unfold entrySignalAt
  by_cases h0 : i = 0
  · simp [h0]
  · rw [if_neg h0, if_neg h0]
    by_cases hd : i < data.length
    · rw [List.getElem?_take_of_lt (by omega), List.getElem?_take_of_lt (by omega),
        getD_take trending false i i (by omega)]
    · rw [List.take_of_length_le (by omega), getD_take trending false i i (by omega)]

theorem exitSignalAt_take (prm : StratParams) (data : List IndRow)
    (trending : List Bool) (pop : Option ℚ) (i : Nat) :
    exitSignalAt prm (data.take (i + 1)) (trending.take (i + 1)) pop i
      = exitSignalAt prm data trending pop i := by
  unfold exitSignalAt
  by_cases h0 : i = 0
  · simp [h0]
  · rw [if_neg h0, if_neg h0, detect_getD_take trending i]
    by_cases hd : i < data.length
    · rw [List.getElem?_take_of_lt (show i < i + 1 by omega),
        List.getElem?_take_of_lt (show i - 1 < i + 1 by omega),
        getD_take trending false i i (by omega)]
    · rw [List.take_of_length_le (by omega), getD_take trending false i i (by omega)]

/-- C9: the buy signal of `entry_signals` and the sell signal of
`exit_signals` at bar `i` are unchanged when every bar after `i` is removed
from their inputs (the indicator frame and the aligned `trending` series are
both truncated to bars `0 .. i`): each signal at bar `i` reads only rows `i`
and `i-1` of its inputs, so it is a pure function of bars `0 .. i`. -/
theorem signals_no_lookahead (prm : StratParams) (data : List IndRow)
    (trending : List Bool) (pop : Option ℚ) (i : Nat)
    (hi : i < data.length) (hlen : trending.length = data.length) :
    (entry_signals prm (data.take (i + 1)) (trending.take (i + 1)))[i]?
      = (entry_signals prm data trending)[i]?
    ∧ (exit_signals prm (data.take (i + 1)) (trending.take (i + 1)) pop)[i]?
      = (exit_signals prm data trending pop)[i]? := by
  have hlt : i < (data.take (i + 1)).length := by
    simp only [List.length_take]
    omega
  constructor
  · unfold entry_signals
    rw [List.getElem?_map, List.getElem?_map,
      List.getElem?_range hlt, List.getElem?_range hi]
    simp only [Option.map_some']
    rw [entrySignalAt_take prm data trending i]
  · unfold exit_signals
    rw [List.getElem?_map, List.getElem?_map,
      List.getElem?_range hlt, List.getElem?_range hi]
    simp only [Option.map_some']
    rw [exitSignalAt_take prm data trending pop i]

theorem signals_no_lookahead_witness :
    (entry_signals prm0 ([indRow0, indRow0, indRow0].take 2) ([false, true, false].take 2))[1]?
      = (entry_signals prm0 [indRow0, indRow0, indRow0] [false, true, false])[1]?
    ∧ (exit_signals prm0 ([indRow0, indRow0, indRow0].take 2) ([false, true, false].take 2) none)[1]?
      = (exit_signals prm0 [indRow0, indRow0, indRow0] [false, true, false] none)[1]? :=
  signals_no_lookahead prm0 [indRow0, indRow0, indRow0] [false, true, false] none 1
    (by decide) (by decide)

/-! #### Performance analytics: profit factor -/

/-- C4 counterexample: for the one-trade ledger `[zeroTrade]` (a single trade
with `pnl = 0`), the code computes `profit_factor = inf` — the trade is a
losing trade (`pnl <= 0`) with `pnl_pct = 0`, so `avg_loss = 0` — yet there is
no winning trade, contradicting the claimed equivalence that `profit_factor`
is `+∞` only when a winning trade exists. -/
theorem profit_factor_iff_cex :
    profit_factor [zeroTrade] = ProfitFactor.inf
    ∧ avg_loss [zeroTrade] = 0
    ∧ winning_trades [zeroTrade] = [] := by
  refine ⟨?_, ?_, ?_⟩
  · norm_num [profit_factor, avg_loss, losing_trades, zeroTrade]
  · norm_num [avg_loss, losing_trades, zeroTrade]
  · norm_num [winning_trades, zeroTrade]

/-- C4, amended: `profit_factor` is `|avg_win / avg_loss|` whenever
`avg_loss ≠ 0`; it is `+∞` if and only if the ledger is non-empty and
`avg_loss = 0` (no winning trade is required — e.g. a ledger whose losing
trades all have zero pnl also yields `+∞`); and it is `0` when the ledger is
empty. -/
theorem profit_factor_amended (trades : List Trade) :
    (avg_loss trades ≠ 0 →
      profit_factor trades = ProfitFactor.val |avg_win trades / avg_loss trades|)
    ∧ (profit_factor trades = ProfitFactor.inf ↔ (trades ≠ [] ∧ avg_loss trades = 0))
    ∧ (trades = [] → profit_factor trades = ProfitFactor.val 0) := by
  refine ⟨?_, ?_, ?_⟩
  · intro h
    have hne : trades ≠ [] := by
      intro he
      rw [he] at h
      exact h (by simp [avg_loss, losing_trades])
    simp [profit_factor, hne, h]
  · constructor
    · intro h
      by_cases hne : trades = []
      · simp [profit_factor, hne] at h
      · by_cases hl : avg_loss trades = 0
        · exact ⟨hne, hl⟩
        · simp [profit_factor, hne, hl] at h
    · rintro ⟨hne, hl⟩
      simp [profit_factor, hne, hl]
  · intro h
    simp [profit_factor, h]

theorem profit_factor_amended_witness :
    profit_factor [] = ProfitFactor.val 0
    ∧ profit_factor [zeroTrade] = ProfitFactor.inf :=
  ⟨(profit_factor_amended []).2.2 rfl,
   (profit_factor_amended [zeroTrade]).2.1.mpr
     ⟨by simp, by norm_num [avg_loss, losing_trades, zeroTrade]⟩⟩

/-! #### The `run` pipeline -/

/-- C1 (code bug): `Backtest.run` never returns a result — for every stored
frame and every configuration it raises before the simulation loop.  On any
frame with the three price columns it is the `TypeError` from
`analyze_market`'s keyword argument `bb_width_percentile` (and the 4-from-3
tuple unpacking and the missing `trending` argument of `entry_signals` would
follow); a missing column raises `KeyError` even earlier.  This contradicts
the documented contract (run returns `(result, results_df)`), the repository's
own `test_backtest.py`, and the claim. -/
theorem run_always_raises (bt : Backtest) :
    ∃ msg : String, Backtest.run bt = Except.error msg := by
  unfold Backtest.run calculate_indicators df_get_col analyze_market
  cases bt.data.closeCol <;> cases bt.data.highCol <;> cases bt.data.lowCol <;>
    exact ⟨_, rfl⟩

/-- C2 counterexample: the explicitly non-chronological frame `dfNonChrono`
(timestamps `[2, 1, 0]`, all OHLCV columns present) is never rejected:
`Backtest.__init__` stores it unchanged (it has no failure channel at all),
`calculate_indicators` returns normally on it, and `Backtest.run` produces
exactly the same input-independent `TypeError` as on the well-formed
`dfWellFormed` — so no descriptive error about the malformed input is ever
raised before (or instead of) the simulation. -/
theorem no_fail_fast_cex :
    ¬ chronological dfNonChrono.index
    ∧ (Backtest.init dfNonChrono 20 50 1000000 1 (5 / 10000)).data = dfNonChrono
    ∧ calculate_indicators 20 50 dfNonChrono
        = Except.ok ⟨[1, 2, 3], [2, 2, 2], [1, 1, 1],
            moving_average [1, 2, 3] 20, moving_average [1, 2, 3] 50⟩
    ∧ Backtest.run (Backtest.init dfNonChrono 20 50 1000000 1 (5 / 10000))
        = Backtest.run (Backtest.init dfWellFormed 20 50 1000000 1 (5 / 10000)) := by
  refine ⟨?_, rfl, rfl, rfl⟩
  norm_num [chronological, dfNonChrono, List.chain'_cons]

/-- C2, amended: the backtest performs no input validation.  `__init__`
accepts any frame unchanged; a frame missing its `close` column fails only
when the first indicator reads that column (`KeyError: close`, before the
loop); a frame with its three price columns present — chronological or not,
empty or not — passes indicator computation without any error, and every such
run then fails with the same strategy-interface `TypeError`, malformed and
well-formed inputs alike. -/
theorem no_validation_amended :
    (∀ (data : Df) (msp mlp : Nat) (ic ps c : ℚ),
        Backtest.init data msp mlp ic ps c
          = { data := data, ma_short_period := msp, ma_long_period := mlp,
              initial_capital := ic, position_size := ps, commission := c })
    ∧ (∀ (msp mlp : Nat) (df : Df), df.closeCol = none →
        calculate_indicators msp mlp df = Except.error ("KeyError: close"))
    ∧ (∀ (msp mlp : Nat) (df : Df) (cs hs ls : List ℚ),
        df.closeCol = some cs → df.highCol = some hs → df.lowCol = some ls →
        calculate_indicators msp mlp df
          = Except.ok ⟨cs, hs, ls, moving_average cs msp, moving_average cs mlp⟩)
    ∧ (∀ bt : Backtest,
        bt.data.closeCol ≠ none → bt.data.highCol ≠ none → bt.data.lowCol ≠ none →
        Backtest.run bt = Except.error
          ("TypeError: is_trending_market() got an unexpected keyword argument bb_width_percentile")) := by
  refine ⟨?_, ?_, ?_, ?_⟩
  · intro data msp mlp ic ps c
    rfl
  · intro msp mlp df h
    unfold calculate_indicators df_get_col
    rw [h]
    rfl
  · intro msp mlp df cs hs ls h1 h2 h3
    unfold calculate_indicators df_get_col
    rw [h1, h2, h3]
    rfl
  · intro bt h1 h2 h3
    obtain ⟨cs, hcs⟩ := Option.ne_none_iff_exists.mp h1
    obtain ⟨hs, hhs⟩ := Option.ne_none_iff_exists.mp h2
    obtain ⟨ls, hls⟩ := Option.ne_none_iff_exists.mp h3
    unfold Backtest.run calculate_indicators df_get_col analyze_market
    rw [← hcs, ← hhs, ← hls]
    rfl

theorem no_validation_amended_witness :
    calculate_indicators 20 50 dfMissingClose = Except.error ("KeyError: close")
    ∧ Backtest.run (Backtest.init dfWellFormed 20 50 1000000 1 0)
        = Except.error
          ("TypeError: is_trending_market() got an unexpected keyword argument bb_width_percentile") :=
  ⟨no_validation_amended.2.1 20 50 dfMissingClose rfl,
   no_validation_amended.2.2.2 (Backtest.init dfWellFormed 20 50 1000000 1 0)
     (by simp [Backtest.init, dfWellFormed])
     (by simp [Backtest.init, dfWellFormed])
     (by simp [Backtest.init, dfWellFormed])⟩

end Coinrich
